import Mathlib

/-!
Shallow embedding of the pipe-source resolver in
`screenpipe-server/src/bin/screenpipe-pipe-runner.rs`.

The resolver classifies an input string as URL vs. local path,
normalizes GitHub web-UI URLs to raw-content URLs
(`get_raw_github_url`), downloads the content and persists it to a
temporary file with the extension taken from the original URL
(`download_pipe`).  Strings are modelled as `List Char`; the effects of
`download_pipe` (HTTP GET, temporary-file creation, write, rename) are
modelled by an explicit environment `Env` supplying each effect's
outcome, together with an event trace recording which side effects
actually happened, in order.
-/

/-- Result of running a piece of Rust code: `ok` models `Ok`, `err` models
returning an error value (`Err`), and `crash` models a Rust panic (such as
an out-of-bounds `Vec` index). -/
inductive RustResult (α : Type) where
  | ok : α → RustResult α
  | err : List Char → RustResult α
  | crash : RustResult α
  deriving DecidableEq, Repr

/-- Recognizer for the `ok` case of a `RustResult`. -/
def RustResult.isOk {α : Type} : RustResult α → Bool
  | .ok _ => true
  | _ => false

/-- Finds the first occurrence of `://` in a character list, returning the
part before it and the part after it.  This models how `url::Url::parse`
separates the scheme from the remainder of a hierarchical URL. -/
def splitOnScheme : List Char → Option (List Char × List Char)
  | [] => none
  | c :: rest =>
    if c = ':' ∧ rest.take 2 = ['/', '/'] then some ([], rest.drop 2)
    else
      match splitOnScheme rest with
      | none => none
      | some (a, b) => some (c :: a, b)

/-- Splits a character list at every occurrence of the separator `c`; the
result always has one piece more than the number of separators.  Models
Rust's `str::split('/')` as used by `Url::path_segments`. -/
def splitOnChar (c : Char) : List Char → List (List Char)
  | [] => [[]]
  | x :: xs =>
    match splitOnChar c xs with
    | [] => [[]]
    | s :: ss => if x = c then [] :: s :: ss else (x :: s) :: ss

/-- Puts the separator `c` back between the pieces; models Rust's
`[&str]::join("/")` on a one-character separator. -/
def joinChar (c : Char) : List (List Char) → List Char
  | [] => []
  | [s] => s
  | s :: ss => s ++ c :: joinChar c ss

/-- The components of a parsed hierarchical URL that the pipe runner
inspects: scheme, host and path segments. -/
structure Url where
  scheme : List Char
  host : List Char
  pathSegments : List (List Char)
  deriving DecidableEq, Repr

/-- Tests that a character is not the path separator `/`. -/
def notSlash (c : Char) : Bool := c ≠ '/'

/-- Tests that a character is not the extension separator `.`. -/
def notDot (c : Char) : Bool := c ≠ '.'

/-- Model of the external crate function `url::Url::parse`, restricted to
the hierarchical shape `scheme://host/path` (no user info, port, query or
fragment, which the pipe runner never uses).  The scheme is everything
before the first `://`, the host runs from there to the next `/`, and the
path segments are the remainder split on `/`; a URL whose path is empty
gets the single empty segment, as in the crate.  Parsing fails (`none`)
when there is no `://` or the scheme or host is empty; strings without
`://`, such as local file paths, are exactly the ones rejected. -/
def Url.parseChars (l : List Char) : Option Url :=
  match splitOnScheme l with
  | none => none
  | some (scheme, rest) =>
    if scheme = [] then none
    else
      let host := rest.takeWhile notSlash
      let path := rest.dropWhile notSlash
      if host = [] then none
      else some { scheme := scheme, host := host, pathSegments := splitOnChar '/' (path.drop 1) }

/-- The GitHub web-UI host checked by `get_raw_github_url`. -/
def githubHost : List Char := "github.com".data

/-- The only host `download_pipe` accepts after normalization. -/
def rawHost : List Char := "raw.githubusercontent.com".data

/-- The fixed prefix of every rewritten raw-content URL, from the
`format!` string in `get_raw_github_url`. -/
def rawPrefix : List Char := "https://raw.githubusercontent.com/".data

/-- Stand-in for the `url::ParseError` propagated by the `?` on
`Url::parse`. -/
def urlParseError : List Char := "URL parse error".data

/-- The exact message of the host-check failure in `download_pipe`. -/
def unsupportedMsg : List Char :=
  "Only public GitHub URLs or raw.githubusercontent.com URLs are supported".data

/-- The default extension used when the URL has none (`unwrap_or("js")`). -/
def jsExt : List Char := "js".data

/-- Embedding of `get_raw_github_url` (pipe runner, lines 70-93).  The
source parses the URL (propagating a parse error), and when the host is
`github.com` and `path_segments.len() >= 3` it reads
`path_segments[0]`, `[1]`, `[2]` (discarded) and `[3]` and rewrites to
`https://raw.githubusercontent.com/{owner}/{repo}/{branch}/{rest joined
by "/"}`; otherwise it returns the input unchanged.  When the length is
exactly 3 the index `path_segments[3]` is out of bounds and the Rust
`Vec` index panics: the inner length test below returns `.crash` on that
branch. -/
def get_raw_github_url (url : List Char) : RustResult (List Char) :=
  match Url.parseChars url with
  | none => .err urlParseError
  | some parsed =>
    if parsed.host = githubHost then
      let ps := parsed.pathSegments
      if 3 ≤ ps.length then
        if 4 ≤ ps.length then
          .ok (rawPrefix ++ (ps.getD 0 [] ++ '/' ::
            (ps.getD 1 [] ++ '/' :: (ps.getD 3 [] ++ '/' :: joinChar '/' (ps.drop 4)))))
        else .crash
      else .ok url
    else .ok url

example : get_raw_github_url "https://example.com/x".data = .ok "https://example.com/x".data := by
  decide

example : get_raw_github_url "https://github.com/o/r/blob/main/a/b.js".data
    = .ok "https://raw.githubusercontent.com/o/r/main/a/b.js".data := by decide

/-- The file-name component of a path: the characters after the last `/`
(the whole path when there is no `/`).  Model of `std::path::Path::file_name`
for the simple paths the pipe runner builds (no trailing `/`, no `..`). -/
def fileName (p : List Char) : List Char :=
  (p.reverse.takeWhile notSlash).reverse

/-- The directory part of a path, up to and including the last `/` (empty
when there is no `/`); the complement of `fileName`. -/
def dirPart (p : List Char) : List Char :=
  (p.reverse.dropWhile notSlash).reverse

/-- The extension of a file name: the characters after the last `.`,
except that a `.` in first position never starts an extension (a file
called `.tmpXYZ` has no extension).  Model of the split
`std::path::Path::extension` performs on the file name. -/
def extensionOfFileName (f : List Char) : Option (List Char) :=
  match f with
  | [] => none
  | _ :: rest =>
    if '.' ∈ rest then some ((f.reverse.takeWhile notDot).reverse)
    else none

/-- The file name with its extension (and the `.` before it) removed; the
whole file name when `extensionOfFileName` is `none`.  Model of
`std::path::Path::file_stem`. -/
def stemOfFileName (f : List Char) : List Char :=
  match f with
  | [] => []
  | _ :: rest =>
    if '.' ∈ rest then ((f.reverse.dropWhile notDot).drop 1).reverse
    else f

/-- The extension of a path, read off its file name.  Model of
`Path::new(url).extension()` as used in `download_pipe` (with
`and_then(to_str)` collapsed away, since our characters are always valid
text). -/
def pathExtension (p : List Char) : Option (List Char) :=
  extensionOfFileName (fileName p)

/-- Model of `std::path::Path::with_extension`: keep the directory part
and the file stem, then append `.` and the new extension (just the stem
when the new extension is empty). -/
def withExtension (p e : List Char) : List Char :=
  if e = [] then dirPart p ++ stemOfFileName (fileName p)
  else dirPart p ++ (stemOfFileName (fileName p) ++ '.' :: e)

example : pathExtension "https://github.com/o/r/blob/main/a/b.py".data = some "py".data := by
  decide

example : pathExtension "https://example.com/script".data = none := by decide

example : withExtension "/tmp/.tmpAB12".data "py".data = "/tmp/.tmpAB12.py".data := by decide

/-- One observable side effect of a resolution run, in the order
performed: the HTTP GET, the creation of the anonymous temporary file,
the successful write of the downloaded content into it, the rename to
the final extension-bearing path, and (local branch) the attempt to
canonicalize the input as a filesystem path. -/
inductive Event where
  | netRequest : List Char → Event
  | createTemp : List Char → Event
  | writeFile : List Char → List Char → Event
  | rename : List Char → List Char → Event
  | canonicalize : List Char → Event
  deriving DecidableEq, Repr

/-- Whether a trace contains a rename event. -/
def isRenameEvent : Event → Bool
  | .rename _ _ => true
  | _ => false

/-- `true` when some event of the trace is a rename. -/
def hasRename (tr : List Event) : Bool := tr.any isRenameEvent

/-- The outcomes the outside world hands to one resolution run: the body
text produced by `reqwest::get` followed by `.text()` for a given URL (or
a transport/decode error), the path of the fresh `NamedTempFile` (or a
creation error), the outcome of `write_all`, the outcome of
`std::fs::rename`, and the outcome of `Path::canonicalize` for a given
input path. -/
structure Env where
  httpGet : List Char → Except (List Char) (List Char)
  tempFile : Except (List Char) (List Char)
  writeResult : Except (List Char) Unit
  renameResult : Except (List Char) Unit
  canonicalize : List Char → Except (List Char) (List Char)

/-- Embedding of `download_pipe` (pipe runner, lines 95-162).  In source
order: normalize via `get_raw_github_url` (propagating its error, or the
panic), re-parse the normalized URL, reject any host other than
`raw.githubusercontent.com` with `unsupportedMsg` before any network or
file activity, then GET the raw URL, create a temporary file, write the
downloaded text to it, compute the extension of the *original* input URL
(defaulting to `js`), and rename the temporary file to the same path
with that extension.  The second component is the trace of side effects
that happened before the run ended. -/
def download_pipe (env : Env) (url : List Char) : RustResult (List Char) × List Event :=
  match get_raw_github_url url with
  | .crash => (.crash, [])
  | .err e => (.err e, [])
  | .ok raw_url =>
    match Url.parseChars raw_url with
    | none => (.err urlParseError, [])
    | some parsed =>
      if parsed.host ≠ rawHost then (.err unsupportedMsg, [])
      else
        match env.httpGet raw_url with
        | .error e => (.err e, [.netRequest raw_url])
        | .ok content =>
          match env.tempFile with
          | .error e => (.err e, [.netRequest raw_url])
          | .ok temp_path =>
            match env.writeResult with
            | .error e => (.err e, [.netRequest raw_url, .createTemp temp_path])
            | .ok _ =>
              let extension := (pathExtension url).getD jsExt
              let final_path := withExtension temp_path extension
              match env.renameResult with
              | .error e =>
                (.err e, [.netRequest raw_url, .createTemp temp_path,
                  .writeFile temp_path content])
              | .ok _ =>
                (.ok final_path, [.netRequest raw_url, .createTemp temp_path,
                  .writeFile temp_path content, .rename temp_path final_path])

/-- Lifts the outcome of `Path::canonicalize` into the result type, as
the `match` in `main` does (`Ok(path) => path`, `Err(e) => return Err`). -/
def exceptToResult (r : Except (List Char) (List Char)) : RustResult (List Char) :=
  match r with
  | .ok p => .ok p
  | .error e => .err e

/-- Embedding of the resolution logic of `main` (pipe runner, lines
34-55): try `Url::parse` on the input; on success hand the *original
input string* to `download_pipe`; on failure treat the input as a local
path and attempt to canonicalize it, propagating the I/O error. -/
def resolve_pipe (env : Env) (input : List Char) : RustResult (List Char) × List Event :=
  match Url.parseChars input with
  | some _ => download_pipe env input
  | none =>
    match env.canonicalize input with
    | .ok p => (.ok p, [.canonicalize input])
    | .error e => (.err e, [.canonicalize input])

/-- A concrete environment where every effect succeeds, used to evaluate
the theorems below at concrete inputs. -/
def testEnv : Env where
  httpGet := fun _ => .ok "console.log(42);".data
  tempFile := .ok "/tmp/.tmpAB12".data
  writeResult := .ok ()
  renameResult := .ok ()
  canonicalize := fun p => .ok ('/' :: p)

/-- A concrete environment where every effect fails, used to evaluate the
failure-path theorems below at concrete inputs. -/
def failEnv : Env where
  httpGet := fun _ => .error "connection refused".data
  tempFile := .error "no temp dir".data
  writeResult := .error "disk full".data
  renameResult := .error "cross-device link".data
  canonicalize := fun _ => .error "No such file or directory (os error 2)".data

lemma takeWhile_append_all (p : Char → Bool) (a b : List Char) (h : ∀ x ∈ a, p x = true) :
    (a ++ b).takeWhile p = a ++ b.takeWhile p := by
  induction a with
  | nil => rfl
  | cons x xs ih =>
    have hx : p x = true := h x (by simp)
    simp only [List.cons_append, List.takeWhile_cons, hx]
    simp [ih fun y hy => h y (by simp [hy])]

lemma dropWhile_append_all (p : Char → Bool) (a b : List Char) (h : ∀ x ∈ a, p x = true) :
    (a ++ b).dropWhile p = b.dropWhile p := by
  induction a with
  | nil => rfl
  | cons x xs ih =>
    have hx : p x = true := h x (by simp)
    simp only [List.cons_append, List.dropWhile_cons, hx]
    simp [ih fun y hy => h y (by simp [hy])]

lemma splitOnScheme_append (s t : List Char) (h : ':' ∉ s) :
    splitOnScheme (s ++ ':' :: '/' :: '/' :: t) = some (s, t) := by
  induction s with
  | nil => simp [splitOnScheme]
  | cons c s' ih =>
    have hc : ¬(c = ':') := fun hc => h (by simp [hc])
    have h' : ':' ∉ s' := fun hm => h (by simp [hm])
    simp only [List.cons_append, splitOnScheme, List.append_eq]
    rw [if_neg (by intro hand; exact hc hand.1)]
    rw [ih h']

lemma splitOnChar_ne_nil (c : Char) (l : List Char) : splitOnChar c l ≠ [] := by
  induction l with
  | nil => simp [splitOnChar]
  | cons x xs ih =>
    cases hs : splitOnChar c xs with
    | nil => exact absurd hs ih
    | cons s ss =>
      simp only [splitOnChar, hs]
      by_cases hx : x = c <;> simp [hx]

lemma splitOnChar_append (c : Char) (a b : List Char) (h : c ∉ a) :
    splitOnChar c (a ++ c :: b) = a :: splitOnChar c b := by
  induction a with
  | nil =>
    cases hs : splitOnChar c b with
    | nil => exact absurd hs (splitOnChar_ne_nil c b)
    | cons s ss => simp [splitOnChar, hs]
  | cons x xs ih =>
    have hx : ¬(x = c) := fun hx => h (by simp [hx])
    have h' : c ∉ xs := fun hm => h (by simp [hm])
    simp only [List.cons_append, splitOnChar, List.append_eq, ih h']
    simp [hx]

lemma joinChar_splitOnChar (c : Char) (l : List Char) :
    joinChar c (splitOnChar c l) = l := by
  induction l with
  | nil => rfl
  | cons x xs ih =>
    cases hs : splitOnChar c xs with
    | nil => exact absurd hs (splitOnChar_ne_nil c xs)
    | cons s ss =>
      rw [hs] at ih
      by_cases hx : x = c
      · subst hx
        simp only [splitOnChar, hs, if_pos rfl]
        simpa [joinChar] using ih
      · simp only [splitOnChar, hs, if_neg hx]
        cases ss with
        | nil => simpa [joinChar] using congrArg (x :: ·) ih
        | cons s2 ss2 =>
          simp only [joinChar] at ih ⊢
          simp [ih]

lemma notSlash_slash : notSlash '/' = false := by decide

lemma parseChars_scheme_host (sch host y : List Char)
    (hsch : ':' ∉ sch) (hschne : sch ≠ []) (hhost : ∀ x ∈ host, notSlash x = true)
    (hhostne : host ≠ []) :
    Url.parseChars (sch ++ ':' :: '/' :: '/' :: (host ++ '/' :: y)) =
      some ⟨sch, host, splitOnChar '/' y⟩ := by
  simp only [Url.parseChars, splitOnScheme_append sch _ hsch,
    takeWhile_append_all notSlash host ('/' :: y) hhost,
    dropWhile_append_all notSlash host ('/' :: y) hhost,
    List.takeWhile_cons, List.dropWhile_cons, notSlash_slash]
  simp [hschne, hhostne]

lemma parse_rawPrefix_append (y : List Char) :
    Url.parseChars (rawPrefix ++ y) = some ⟨"https".data, rawHost, splitOnChar '/' y⟩ := by
  have h1 : rawPrefix = "https".data ++ ':' :: '/' :: '/' :: (rawHost ++ ['/']) := by decide
  have hd : rawPrefix ++ y = "https".data ++ ':' :: '/' :: '/' :: (rawHost ++ '/' :: y) := by
    rw [h1]; simp
  rw [hd, parseChars_scheme_host _ _ _ (by decide) (by decide) (by decide) (by decide)]

lemma parse_github_append (y : List Char) :
    Url.parseChars ("https://github.com/".data ++ y)
      = some ⟨"https".data, githubHost, splitOnChar '/' y⟩ := by
  have h1 : "https://github.com/".data
      = "https".data ++ ':' :: '/' :: '/' :: (githubHost ++ ['/']) := by decide
  have hd : "https://github.com/".data ++ y
      = "https".data ++ ':' :: '/' :: '/' :: (githubHost ++ '/' :: y) := by
    rw [h1]; simp
  rw [hd, parseChars_scheme_host _ _ _ (by decide) (by decide) (by decide) (by decide)]

lemma get_raw_of_rawPrefix (y : List Char) :
    get_raw_github_url (rawPrefix ++ y) = .ok (rawPrefix ++ y) := by
  simp only [get_raw_github_url, parse_rawPrefix_append]
  rw [if_neg (by decide : ¬(rawHost = githubHost))]

lemma get_raw_github_of_segments (owner repo marker branch rest : List Char)
    (ho : '/' ∉ owner) (hr : '/' ∉ repo) (hm : '/' ∉ marker) (hb : '/' ∉ branch) :
    get_raw_github_url ("https://github.com/".data ++
        (owner ++ '/' :: (repo ++ '/' :: (marker ++ '/' :: (branch ++ '/' :: rest)))))
      = .ok (rawPrefix ++ (owner ++ '/' :: (repo ++ '/' :: (branch ++ '/' :: rest)))) := by
  have hseg : splitOnChar '/'
        (owner ++ '/' :: (repo ++ '/' :: (marker ++ '/' :: (branch ++ '/' :: rest))))
      = owner :: repo :: marker :: branch :: splitOnChar '/' rest := by
    rw [splitOnChar_append _ _ _ ho, splitOnChar_append _ _ _ hr,
      splitOnChar_append _ _ _ hm, splitOnChar_append _ _ _ hb]
  unfold get_raw_github_url
  rw [parse_github_append]
  dsimp only
  rw [hseg]
  rw [if_pos rfl, if_pos (by simp), if_pos (by simp)]
  simp [joinChar_splitOnChar]

lemma get_raw_github_branch (u : List Char) (p : Url) (hp : Url.parseChars u = some p)
    (hh : p.host = githubHost) (hl : 4 ≤ p.pathSegments.length) :
    get_raw_github_url u = .ok (rawPrefix ++ (p.pathSegments.getD 0 [] ++ '/' ::
      (p.pathSegments.getD 1 [] ++ '/' :: (p.pathSegments.getD 3 [] ++ '/' ::
        joinChar '/' (p.pathSegments.drop 4))))) := by
  unfold get_raw_github_url
  rw [hp]
  dsimp only
  rw [if_pos hh, if_pos (by omega : 3 ≤ p.pathSegments.length), if_pos hl]

lemma download_pipe_unsupported (env : Env) (url raw : List Char) (p : Url)
    (hr : get_raw_github_url url = .ok raw) (hp : Url.parseChars raw = some p)
    (hh : p.host ≠ rawHost) :
    download_pipe env url = (.err unsupportedMsg, []) := by
  unfold download_pipe
  rw [hr]
  dsimp only
  rw [hp]
  dsimp only
  rw [if_pos hh]

lemma download_pipe_ok_run (env : Env) (url raw t content : List Char) (p : Url)
    (hr : get_raw_github_url url = .ok raw)
    (hp : Url.parseChars raw = some p) (hh : p.host = rawHost)
    (hg : env.httpGet raw = .ok content) (ht : env.tempFile = .ok t)
    (hw : env.writeResult = .ok ()) (hrn : env.renameResult = .ok ()) :
    download_pipe env url =
      (.ok (withExtension t ((pathExtension url).getD jsExt)),
       [.netRequest raw, .createTemp t, .writeFile t content,
        .rename t (withExtension t ((pathExtension url).getD jsExt))]) := by
  unfold download_pipe
  rw [hr]
  dsimp only
  rw [hp]
  dsimp only
  rw [if_neg (by simp [hh])]
  rw [hg]
  dsimp only
  rw [ht]
  dsimp only
  rw [hw]
  dsimp only
  rw [hrn]

lemma download_pipe_ok_inv (env : Env) (url f : List Char) (tr : List Event)
    (h : download_pipe env url = (.ok f, tr)) :
    ∃ raw p t content, get_raw_github_url url = .ok raw ∧ Url.parseChars raw = some p ∧
      p.host = rawHost ∧ env.httpGet raw = .ok content ∧ env.tempFile = .ok t ∧
      env.writeResult = .ok () ∧ env.renameResult = .ok () ∧
      f = withExtension t ((pathExtension url).getD jsExt) ∧
      tr = [.netRequest raw, .createTemp t, .writeFile t content, .rename t f] := by
  unfold download_pipe at h
  cases hr : get_raw_github_url url <;> rw [hr] at h <;> dsimp only at h
  case err e => exact absurd h (by simp)
  case crash => exact absurd h (by simp)
  case ok raw =>
    cases hp : Url.parseChars raw <;> rw [hp] at h <;> dsimp only at h
    case none => exact absurd h (by simp)
    case some p =>
      by_cases hh : p.host ≠ rawHost
      · rw [if_pos hh] at h
        exact absurd h (by simp)
      · rw [if_neg hh] at h
        push_neg at hh
        cases hg : env.httpGet raw <;> rw [hg] at h <;> dsimp only at h
        next e => exact absurd h (by simp)
        next content =>
          cases ht : env.tempFile <;> rw [ht] at h <;> dsimp only at h
          next e => exact absurd h (by simp)
          next t =>
            cases hw : env.writeResult <;> rw [hw] at h <;> dsimp only at h
            next e => exact absurd h (by simp)
            next wu =>
              cases hrn : env.renameResult <;> rw [hrn] at h <;> dsimp only at h
              next e => exact absurd h (by simp)
              next ru =>
                simp only [Prod.mk.injEq, RustResult.ok.injEq] at h
                obtain ⟨h1, h2⟩ := h
                refine ⟨raw, p, t, content, rfl, hp, hh, hg, rfl, ?_, ?_, h1.symm, ?_⟩
                · cases wu
                  rfl
                · cases ru
                  rfl
                · rw [h2.symm, h1]

lemma download_pipe_write_fail (env : Env) (url e : List Char)
    (hw : env.writeResult = .error e) :
    hasRename (download_pipe env url).2 = false
      ∧ (download_pipe env url).1.isOk = false := by
  unfold download_pipe
  cases hr : get_raw_github_url url <;> dsimp only
  case err e2 => simp [hasRename, RustResult.isOk]
  case crash => simp [hasRename, RustResult.isOk]
  case ok raw =>
    cases hp : Url.parseChars raw <;> dsimp only
    case none => simp [hasRename, RustResult.isOk]
    case some p =>
      by_cases hh : p.host ≠ rawHost
      · rw [if_pos hh]
        simp [hasRename, RustResult.isOk]
      · rw [if_neg hh]
        cases hg : env.httpGet raw <;> dsimp only
        next e2 => simp [hasRename, RustResult.isOk, isRenameEvent]
        next content =>
          cases ht : env.tempFile <;> dsimp only
          next e2 => simp [hasRename, RustResult.isOk, isRenameEvent]
          next t =>
            rw [hw]
            simp [hasRename, RustResult.isOk, isRenameEvent]

lemma notDot_dot : notDot '.' = false := by decide

lemma mem_fileName_notSlash (p : List Char) (x : Char) (hx : x ∈ fileName p) :
    notSlash x = true := by
  unfold fileName at hx
  exact List.mem_takeWhile_imp (List.mem_reverse.mp hx)

lemma mem_stem_mem (f : List Char) (x : Char) (hx : x ∈ stemOfFileName f) : x ∈ f := by
  unfold stemOfFileName at hx
  cases f with
  | nil => simp at hx
  | cons c rest =>
    dsimp only at hx
    by_cases hdot : '.' ∈ rest
    · rw [if_pos hdot] at hx
      have h1 : x ∈ List.drop 1 (List.dropWhile notDot (c :: rest : List Char).reverse) :=
        List.mem_reverse.mp hx
      have h2 : x ∈ List.dropWhile notDot (c :: rest : List Char).reverse :=
        (List.drop_sublist 1 _).subset h1
      have h3 : x ∈ (c :: rest : List Char).reverse :=
        (List.dropWhile_sublist notDot).subset h2
      exact List.mem_reverse.mp h3
    · rw [if_neg hdot] at hx
      exact hx

lemma dropWhile_head_false (p : Char → Bool) (l : List Char) :
    l.dropWhile p = [] ∨ ∃ x xs, l.dropWhile p = x :: xs ∧ p x = false := by
  induction l with
  | nil => exact Or.inl rfl
  | cons a l' ih =>
    by_cases ha : p a = true
    · rw [List.dropWhile_cons_of_pos ha]
      exact ih
    · rw [List.dropWhile_cons_of_neg ha]
      exact Or.inr ⟨a, l', rfl, by simpa using ha⟩

lemma dirPart_shape (p : List Char) :
    dirPart p = [] ∨ ∃ d, dirPart p = d ++ ['/'] := by
  unfold dirPart
  rcases dropWhile_head_false notSlash p.reverse with h | ⟨x, xs, h, hx⟩
  · rw [h]; exact Or.inl rfl
  · have hx' : x = '/' := by
      by_contra hne
      simp [notSlash, hne] at hx
    rw [h, hx']
    exact Or.inr ⟨xs.reverse, by simp⟩

lemma fileName_append_file (d f : List Char) (hd : d = [] ∨ ∃ d', d = d' ++ ['/'])
    (hf : ∀ x ∈ f, notSlash x = true) : fileName (d ++ f) = f := by
  unfold fileName
  have hrev : ∀ x ∈ f.reverse, notSlash x = true := fun x hx =>
    hf x (List.mem_reverse.mp hx)
  rcases hd with h | ⟨d', h⟩
  · subst h
    simp only [List.nil_append]
    rw [List.takeWhile_eq_self_iff.mpr hrev, List.reverse_reverse]
  · subst h
    rw [List.reverse_append, List.reverse_append]
    simp only [List.reverse_cons, List.reverse_nil, List.nil_append, List.cons_append,
      List.append_assoc]
    rw [takeWhile_append_all notSlash f.reverse _ hrev]
    rw [List.takeWhile_cons_of_neg (by simp [notSlash_slash])]
    simp

lemma extension_append_dot (s e : List Char) (hs : s ≠ []) (he : '.' ∉ e) :
    extensionOfFileName (s ++ '.' :: e) = some e := by
  cases s with
  | nil => exact absurd rfl hs
  | cons c s' =>
    unfold extensionOfFileName
    have hmem : '.' ∈ s' ++ '.' :: e := by simp
    simp only [List.cons_append]
    rw [if_pos hmem]
    have herev : ∀ x ∈ e.reverse, notDot x = true := by
      intro x hx
      have : x ∈ e := List.mem_reverse.mp hx
      simp only [notDot, ne_eq, decide_eq_true_eq]
      exact fun hxe => he (hxe ▸ this)
    rw [show ((c :: (s' ++ '.' :: e) : List Char).reverse)
        = e.reverse ++ '.' :: (s'.reverse ++ [c]) by simp]
    rw [takeWhile_append_all notDot e.reverse _ herev,
      List.takeWhile_cons_of_neg (by simp [notDot_dot])]
    simp

lemma pathExtension_withExtension (p e : List Char) (he : e ≠ []) (hdot : '.' ∉ e)
    (hslash : '/' ∉ e) (hstem : stemOfFileName (fileName p) ≠ []) :
    pathExtension (withExtension p e) = some e := by
  unfold withExtension
  rw [if_neg he]
  unfold pathExtension
  have hall : ∀ x ∈ stemOfFileName (fileName p) ++ '.' :: e, notSlash x = true := by
    intro x hx
    rcases List.mem_append.mp hx with hx | hx
    · exact mem_fileName_notSlash p x (mem_stem_mem _ x hx)
    · rcases List.mem_cons.mp hx with hx | hx
      · simp [hx, notSlash]
      · simp only [notSlash, ne_eq, decide_eq_true_eq]
        exact fun hxe => hslash (hxe ▸ hx)
  rw [fileName_append_file _ _ (dirPart_shape p) hall]
  exact extension_append_dot _ _ hstem hdot

lemma pathExtension_chars (p e : List Char) (h : pathExtension p = some e) :
    '.' ∉ e ∧ '/' ∉ e := by
  unfold pathExtension extensionOfFileName at h
  cases hf : fileName p with
  | nil => rw [hf] at h; exact absurd h (by simp)
  | cons c rest =>
    rw [hf] at h
    dsimp only at h
    by_cases hdot : '.' ∈ rest
    · rw [if_pos hdot] at h
      have he : e = ((c :: rest : List Char).reverse.takeWhile notDot).reverse := by
        cases h; rfl
      constructor
      · intro hx
        have := List.mem_takeWhile_imp (List.mem_reverse.mp (he ▸ hx))
        simp [notDot] at this
      · intro hx
        have h1 : '/' ∈ (c :: rest : List Char).reverse.takeWhile notDot :=
          List.mem_reverse.mp (he ▸ hx)
        have h2 : '/' ∈ fileName p := by
          rw [hf]
          exact List.mem_reverse.mp ((List.takeWhile_sublist notDot).subset h1)
        have := mem_fileName_notSlash p '/' h2
        simp [notSlash] at this
    · rw [if_neg hdot] at h
      exact absurd h (by simp)

lemma get_raw_shape (u v : List Char) (h : get_raw_github_url u = .ok v) :
    v = u ∨ ∃ y, v = rawPrefix ++ y := by
  unfold get_raw_github_url at h
  cases hp : Url.parseChars u <;> rw [hp] at h <;> dsimp only at h
  · exact absurd h (by simp)
  case some p =>
    by_cases hh : p.host = githubHost
    · rw [if_pos hh] at h
      by_cases h3 : 3 ≤ p.pathSegments.length
      · rw [if_pos h3] at h
        by_cases h4 : 4 ≤ p.pathSegments.length
        · rw [if_pos h4] at h
          right
          cases h
          exact ⟨_, rfl⟩
        · rw [if_neg h4] at h
          exact absurd h (by simp)
      · rw [if_neg h3] at h
        cases h
        exact Or.inl rfl
    · rw [if_neg hh] at h
      cases h
      exact Or.inl rfl

/-- Claim C1: the claim states that normalization never panics and never
fails except with a URL-parse error.  The code violates this: for a
parseable `github.com` URL whose path has exactly 3 segments the guard
`path_segments.len() >= 3` is passed but the subsequent read of
`path_segments[3]` is out of bounds, so `get_raw_github_url` panics
instead of returning the URL unchanged.  This theorem evaluates the
embedded code at such a failing input. -/
theorem c1_get_raw_github_url_panics_on_three_segment_url :
    get_raw_github_url "https://github.com/a/b/c".data = .crash := by decide

/-- Claim C2: for every owner, repo, branch (each without `/`) and
non-empty rest path, normalizing
`https://github.com/{owner}/{repo}/blob/{branch}/{rest}` produces exactly
`https://raw.githubusercontent.com/{owner}/{repo}/{branch}/{rest}`: the
third path segment `blob` is dropped and the remaining segments are
rejoined with `/`. -/
theorem c2_github_blob_url_rewrite (owner repo branch rest : List Char)
    (ho : '/' ∉ owner) (hr : '/' ∉ repo) (hb : '/' ∉ branch) (_hrest : rest ≠ []) :
    get_raw_github_url ("https://github.com/".data ++
        (owner ++ '/' :: (repo ++ '/' :: ("blob".data ++ '/' :: (branch ++ '/' :: rest)))))
      = .ok (rawPrefix ++ (owner ++ '/' :: (repo ++ '/' :: (branch ++ '/' :: rest)))) :=
  get_raw_github_of_segments owner repo "blob".data branch rest ho hr (by decide) hb

theorem c2_github_blob_url_rewrite_witness :
    get_raw_github_url ("https://github.com/".data ++
        ("o".data ++ '/' :: ("r".data ++ '/' :: ("blob".data ++ '/' ::
          ("main".data ++ '/' :: "a/b.js".data)))))
      = .ok (rawPrefix ++ ("o".data ++ '/' :: ("r".data ++ '/' ::
          ("main".data ++ '/' :: "a/b.js".data)))) :=
  c2_github_blob_url_rewrite "o".data "r".data "main".data "a/b.js".data
    (by decide) (by decide) (by decide) (by decide)

/-- Claim C3: normalization is idempotent.  First, a URL whose host is
already `raw.githubusercontent.com` is returned unchanged.  Second, for
every URL on which normalization succeeds, normalizing the result again
yields the same URL as normalizing once. -/
theorem c3_normalization_idempotent :
    (∀ u p, Url.parseChars u = some p → p.host = rawHost →
      get_raw_github_url u = .ok u) ∧
    (∀ u v, get_raw_github_url u = .ok v → get_raw_github_url v = .ok v) := by
  constructor
  · intro u p hp hh
    unfold get_raw_github_url
    rw [hp]
    dsimp only
    rw [if_neg (by rw [hh]; decide)]
  · intro u v h
    rcases get_raw_shape u v h with rfl | ⟨y, rfl⟩
    · exact h
    · exact get_raw_of_rawPrefix y

theorem c3_normalization_idempotent_witness :
    get_raw_github_url "https://raw.githubusercontent.com/o/r/main/a.js".data
      = .ok "https://raw.githubusercontent.com/o/r/main/a.js".data
    ∧ get_raw_github_url "https://raw.githubusercontent.com/o/r/main/b.py".data
      = .ok "https://raw.githubusercontent.com/o/r/main/b.py".data :=
  ⟨c3_normalization_idempotent.1 "https://raw.githubusercontent.com/o/r/main/a.js".data
      ⟨"https".data, rawHost, ["o".data, "r".data, "main".data, "a.js".data]⟩
      (by decide) rfl,
   c3_normalization_idempotent.2 "https://github.com/o/r/blob/main/b.py".data
      "https://raw.githubusercontent.com/o/r/main/b.py".data (by decide)⟩

/-- Claim C4: whenever the normalized form of the input URL parses but its
host is not exactly `raw.githubusercontent.com`, `download_pipe` fails
with the exact message `Only public GitHub URLs or
raw.githubusercontent.com URLs are supported`, with an empty side-effect
trace: no network request is made and no file is created before the
failure. -/
theorem c4_unsupported_host_rejected (env : Env) (url raw : List Char) (p : Url)
    (hr : get_raw_github_url url = .ok raw) (hp : Url.parseChars raw = some p)
    (hh : p.host ≠ rawHost) :
    download_pipe env url = (.err unsupportedMsg, []) :=
  download_pipe_unsupported env url raw p hr hp hh

theorem c4_unsupported_host_rejected_witness :
    download_pipe testEnv "https://example.com/x.js".data = (.err unsupportedMsg, []) :=
  c4_unsupported_host_rejected testEnv "https://example.com/x.js".data
    "https://example.com/x.js".data
    ⟨"https".data, "example.com".data, ["x.js".data]⟩
    (by decide) (by decide) (by decide)

/-- Claim C5: for every input string, if it parses as an absolute URL the
resolver behaves exactly as `download_pipe` on that input; otherwise it
attempts local canonicalization, returning that attempt's outcome — no
input is rejected merely for being neither. -/
theorem c5_url_vs_local_classification (env : Env) (input : List Char) :
    ((Url.parseChars input).isSome = true →
      resolve_pipe env input = download_pipe env input) ∧
    (Url.parseChars input = none →
      resolve_pipe env input
        = (exceptToResult (env.canonicalize input), [.canonicalize input])) := by
  constructor
  · intro h
    unfold resolve_pipe
    cases hp : Url.parseChars input
    · rw [hp] at h
      simp at h
    · rfl
  · intro h
    unfold resolve_pipe
    rw [h]
    dsimp only
    unfold exceptToResult
    cases hc : env.canonicalize input <;> rfl

/-- Witness for C5 at a URL input and a non-URL input. -/
theorem c5_url_vs_local_classification_witness :
    resolve_pipe testEnv "https://example.com/a".data
      = download_pipe testEnv "https://example.com/a".data
    ∧ resolve_pipe testEnv "local/path.js".data
      = (exceptToResult (testEnv.canonicalize "local/path.js".data),
         [.canonicalize "local/path.js".data]) :=
  ⟨(c5_url_vs_local_classification testEnv "https://example.com/a".data).1 (by decide),
   (c5_url_vs_local_classification testEnv "local/path.js".data).2 (by decide)⟩

/-- Claim C6: an input that does not parse as a URL and whose
canonicalization fails makes resolution fail with the underlying I/O
cause, and the only side effect in the trace is the canonicalization
attempt itself — no temporary file is created and no network request is
issued. -/
theorem c6_missing_local_path_error (env : Env) (input e : List Char)
    (hp : Url.parseChars input = none) (hc : env.canonicalize input = .error e) :
    resolve_pipe env input = (.err e, [.canonicalize input]) := by
  unfold resolve_pipe
  rw [hp]
  dsimp only
  rw [hc]

/-- Witness for C6 at a missing local path. -/
theorem c6_missing_local_path_error_witness :
    resolve_pipe failEnv "missing/pipe.js".data
      = (.err "No such file or directory (os error 2)".data,
         [.canonicalize "missing/pipe.js".data]) :=
  c6_missing_local_path_error failEnv "missing/pipe.js".data
    "No such file or directory (os error 2)".data (by decide) rfl

/-- Claim C7: the extension of the final resolved file is determined from
the original un-normalized input URL: on every successful run whose
temporary file has a non-empty stem, if the input URL's path carries a
non-empty extension the final path carries exactly that extension, and if
the input URL has no extension the final path carries the engine default
`js`. -/
theorem c7_extension_from_original_url (env : Env) (url f t : List Char) (tr : List Event)
    (hdl : download_pipe env url = (.ok f, tr)) (ht : env.tempFile = .ok t)
    (hstem : stemOfFileName (fileName t) ≠ []) :
    (∀ e, pathExtension url = some e → e ≠ [] → pathExtension f = some e) ∧
    (pathExtension url = none → pathExtension f = some jsExt) := by
  obtain ⟨raw2, p2, t2, content2, hr2, hp2, hh2, hg2, ht2, hw2, hrn2, hf2, htr2⟩ :=
    download_pipe_ok_inv env url f tr hdl
  rw [ht] at ht2
  injection ht2 with ht3
  subst ht3
  constructor
  · intro e he hene
    rw [hf2, he, Option.getD_some]
    obtain ⟨hd, hs⟩ := pathExtension_chars url e he
    exact pathExtension_withExtension t e hene hd hs hstem
  · intro he
    rw [hf2, he]
    exact pathExtension_withExtension t jsExt (by decide) (by decide) (by decide) hstem

/-- Witness for C7: a `.py` URL keeps `.py`; an extensionless URL gets
`.js`. -/
theorem c7_extension_from_original_url_witness :
    pathExtension "/tmp/.tmpAB12.py".data = some "py".data
    ∧ pathExtension "/tmp/.tmpAB12.js".data = some jsExt :=
  ⟨(c7_extension_from_original_url testEnv
      "https://raw.githubusercontent.com/o/r/main/s.py".data
      "/tmp/.tmpAB12.py".data "/tmp/.tmpAB12".data
      [.netRequest "https://raw.githubusercontent.com/o/r/main/s.py".data,
       .createTemp "/tmp/.tmpAB12".data,
       .writeFile "/tmp/.tmpAB12".data "console.log(42);".data,
       .rename "/tmp/.tmpAB12".data "/tmp/.tmpAB12.py".data]
      (by decide) rfl (by decide)).1 "py".data (by decide) (by decide),
   (c7_extension_from_original_url testEnv
      "https://raw.githubusercontent.com/o/r/main/script".data
      "/tmp/.tmpAB12.js".data "/tmp/.tmpAB12".data
      [.netRequest "https://raw.githubusercontent.com/o/r/main/script".data,
       .createTemp "/tmp/.tmpAB12".data,
       .writeFile "/tmp/.tmpAB12".data "console.log(42);".data,
       .rename "/tmp/.tmpAB12".data "/tmp/.tmpAB12.js".data]
      (by decide) rfl (by decide)).2 (by decide)⟩

/-- Claim C8: round-trip — on every successful resolution the content
written to the temporary file (which is then renamed to the final path)
is exactly the body text returned by the HTTP GET of the normalized URL,
whatever that body is. -/
theorem c8_written_bytes_equal_body (env : Env) (url f raw content t : List Char)
    (tr : List Event) (h : download_pipe env url = (.ok f, tr))
    (hr : get_raw_github_url url = .ok raw)
    (hg : env.httpGet raw = .ok content) (ht : env.tempFile = .ok t) :
    Event.writeFile t content ∈ tr ∧ Event.rename t f ∈ tr := by
  obtain ⟨raw2, p2, t2, content2, hr2, hp2, hh2, hg2, ht2, hw2, hrn2, hf2, htr2⟩ :=
    download_pipe_ok_inv env url f tr h
  rw [hr] at hr2
  injection hr2 with hraw
  subst hraw
  rw [hg] at hg2
  injection hg2 with hcontent
  subst hcontent
  rw [ht] at ht2
  injection ht2 with ht3
  subst ht3
  rw [htr2]
  exact ⟨by simp, by simp⟩

/-- Witness for C8 on a concrete successful run. -/
theorem c8_written_bytes_equal_body_witness :
    Event.writeFile "/tmp/.tmpAB12".data "console.log(42);".data
      ∈ [Event.netRequest "https://raw.githubusercontent.com/o/r/main/s.py".data,
         Event.createTemp "/tmp/.tmpAB12".data,
         Event.writeFile "/tmp/.tmpAB12".data "console.log(42);".data,
         Event.rename "/tmp/.tmpAB12".data "/tmp/.tmpAB12.py".data]
    ∧ Event.rename "/tmp/.tmpAB12".data "/tmp/.tmpAB12.py".data
      ∈ [Event.netRequest "https://raw.githubusercontent.com/o/r/main/s.py".data,
         Event.createTemp "/tmp/.tmpAB12".data,
         Event.writeFile "/tmp/.tmpAB12".data "console.log(42);".data,
         Event.rename "/tmp/.tmpAB12".data "/tmp/.tmpAB12.py".data] :=
  c8_written_bytes_equal_body testEnv
    "https://raw.githubusercontent.com/o/r/main/s.py".data
    "/tmp/.tmpAB12.py".data
    "https://raw.githubusercontent.com/o/r/main/s.py".data
    "console.log(42);".data "/tmp/.tmpAB12".data
    [Event.netRequest "https://raw.githubusercontent.com/o/r/main/s.py".data,
     Event.createTemp "/tmp/.tmpAB12".data,
     Event.writeFile "/tmp/.tmpAB12".data "console.log(42);".data,
     Event.rename "/tmp/.tmpAB12".data "/tmp/.tmpAB12.py".data]
    (by decide) (by decide) rfl rfl

/-- Claim C9: persistence is atomic with respect to the final name — if
the write to the temporary file fails, the run fails (`isOk = false`) and
the trace contains no rename at all; and on success the final path is
exactly the temporary path with its extension replaced by the determined
extension, produced by the single rename recorded as the last event of
the trace, after the full write. -/
theorem c9_atomic_persistence (env : Env) (url : List Char) :
    (∀ e, env.writeResult = .error e →
      hasRename (download_pipe env url).2 = false
        ∧ (download_pipe env url).1.isOk = false) ∧
    (∀ f t raw content tr, download_pipe env url = (.ok f, tr) →
      env.tempFile = .ok t → get_raw_github_url url = .ok raw →
      env.httpGet raw = .ok content →
      f = withExtension t ((pathExtension url).getD jsExt) ∧
      tr = [.netRequest raw, .createTemp t, .writeFile t content, .rename t f]) := by
  constructor
  · intro e hw
    exact download_pipe_write_fail env url e hw
  · intro f t raw content tr h ht hr hg
    obtain ⟨raw2, p2, t2, content2, hr2, hp2, hh2, hg2, ht2, hw2, hrn2, hf2, htr2⟩ :=
      download_pipe_ok_inv env url f tr h
    rw [hr] at hr2
    injection hr2 with hraw
    subst hraw
    rw [ht] at ht2
    injection ht2 with ht3
    subst ht3
    rw [hg] at hg2
    injection hg2 with hcontent
    subst hcontent
    exact ⟨hf2, htr2⟩

/-- Witness for C9: a failing write renames nothing and fails; a
successful run renames the temporary file to its extension-bearing twin. -/
theorem c9_atomic_persistence_witness :
    (hasRename (download_pipe failEnv
        "https://raw.githubusercontent.com/o/r/main/s.py".data).2 = false
      ∧ (download_pipe failEnv
        "https://raw.githubusercontent.com/o/r/main/s.py".data).1.isOk = false)
    ∧ ("/tmp/.tmpAB12.py".data
        = withExtension "/tmp/.tmpAB12".data
            ((pathExtension "https://raw.githubusercontent.com/o/r/main/s.py".data).getD jsExt)
      ∧ [Event.netRequest "https://raw.githubusercontent.com/o/r/main/s.py".data,
         Event.createTemp "/tmp/.tmpAB12".data,
         Event.writeFile "/tmp/.tmpAB12".data "console.log(42);".data,
         Event.rename "/tmp/.tmpAB12".data "/tmp/.tmpAB12.py".data]
        = [Event.netRequest "https://raw.githubusercontent.com/o/r/main/s.py".data,
           Event.createTemp "/tmp/.tmpAB12".data,
           Event.writeFile "/tmp/.tmpAB12".data "console.log(42);".data,
           Event.rename "/tmp/.tmpAB12".data
             (withExtension "/tmp/.tmpAB12".data
               ((pathExtension "https://raw.githubusercontent.com/o/r/main/s.py".data).getD jsExt))]) :=
  ⟨(c9_atomic_persistence failEnv
      "https://raw.githubusercontent.com/o/r/main/s.py".data).1
      "disk full".data rfl,
   (c9_atomic_persistence testEnv
      "https://raw.githubusercontent.com/o/r/main/s.py".data).2
      "/tmp/.tmpAB12.py".data "/tmp/.tmpAB12".data
      "https://raw.githubusercontent.com/o/r/main/s.py".data
      "console.log(42);".data
      [Event.netRequest "https://raw.githubusercontent.com/o/r/main/s.py".data,
       Event.createTemp "/tmp/.tmpAB12".data,
       Event.writeFile "/tmp/.tmpAB12".data "console.log(42);".data,
       Event.rename "/tmp/.tmpAB12".data "/tmp/.tmpAB12.py".data]
      (by decide) rfl (by decide) rfl⟩

/-- Claim C10 (implicit): for every `github.com` URL with at least 4 path
segments, normalization drops the third path segment unconditionally —
the conclusion does not mention segment 2, so any marker value is
accepted and discarded — and the rewritten URL always begins with the
fixed `https://raw.githubusercontent.com/` prefix, whatever the input
URL's scheme was. -/
theorem c10_marker_ignored_scheme_https (u : List Char) (p : Url)
    (hp : Url.parseChars u = some p) (hh : p.host = githubHost)
    (hl : 4 ≤ p.pathSegments.length) :
    get_raw_github_url u = .ok (rawPrefix ++ (p.pathSegments.getD 0 [] ++ '/' ::
      (p.pathSegments.getD 1 [] ++ '/' :: (p.pathSegments.getD 3 [] ++ '/' ::
        joinChar '/' (p.pathSegments.drop 4))))) :=
  get_raw_github_branch u p hp hh hl

/-- Witness for C10 at an `http` URL with marker `tree`: the marker is
dropped and the scheme forced to `https`. -/
theorem c10_marker_ignored_scheme_https_witness :
    get_raw_github_url "http://github.com/o/r/tree/b/f.js".data
      = .ok "https://raw.githubusercontent.com/o/r/b/f.js".data :=
  c10_marker_ignored_scheme_https "http://github.com/o/r/tree/b/f.js".data
    ⟨"http".data, githubHost, ["o".data, "r".data, "tree".data, "b".data, "f.js".data]⟩
    (by decide) rfl (by decide)
